import Mathlib

/-!
Shallow embedding of the playoff-series core of `pracnbastats`
(`src/pracnbastats/playoffs.py`), together with theorems settling the
specification claims about it.

Outcome strings are modelled as `List Char` over the alphabet
`{'1', '2'}` ( `TeamType.SHCA.value = '1'`, `TeamType.OTHER.value = '2'` ).
All raise sites of `NBAStatsValueException` are modelled as distinct
constructors of an error type, one per raise site, and fallible Python
functions become `Except`-valued Lean functions.
-/

namespace Pracnbastats

/-- Decidable equality for `Except`, so results of fallible operations
can be compared by `decide`. -/
instance instDecEqExcept {ε α : Type} [DecidableEq ε] [DecidableEq α] :
    DecidableEq (Except ε α)
  | Except.error e, Except.error f =>
      if h : e = f then .isTrue (congrArg Except.error h)
      else .isFalse (fun hh => h (Except.error.inj hh))
  | Except.error _, Except.ok _ => .isFalse Except.noConfusion
  | Except.ok _, Except.error _ => .isFalse Except.noConfusion
  | Except.ok a, Except.ok b =>
      if h : a = b then .isTrue (congrArg Except.ok h)
      else .isFalse (fun hh => h (Except.ok.inj hh))

/-- `TeamType` enum: team with (`SHCA`) or without (`OTHER`) playoff series
home court advantage. -/
inductive TeamType where
  | SHCA
  | OTHER
deriving DecidableEq

/-- The enum member's value: `SHCA = '1'`, `OTHER = '2'`. -/
def TeamType.value : TeamType → Char
  | .SHCA => '1'
  | .OTHER => '2'

/-- The enum member's name, as used in `SeriesOutcome.key`. -/
def TeamType.name : TeamType → String
  | .SHCA => "SHCA"
  | .OTHER => "OTHER"

/-- Python `TeamType(c)`: enum lookup by value; raises `ValueError`
(here `none`) when `c` is not the value of any member. -/
def teamTypeOfValue (c : Char) : Option TeamType :=
  if c = '1' then some TeamType.SHCA
  else if c = '2' then some TeamType.OTHER
  else none

/-- Python `str.upper` restricted to one ASCII character: a lowercase
letter (code 97–122) is mapped 32 down, anything else is unchanged.
The tokens this core feeds through normalization are ASCII. -/
def upperChar (c : Char) : Char :=
  if 97 ≤ c.toNat ∧ c.toNat ≤ 122 then Char.ofNat (c.toNat - 32) else c

/-- One character of `TeamType.convert_string`: after uppercasing, the
aliases `Y`/`H` become `'1'` and `N`/`R` become `'2'`; every other
character passes through unchanged.  (The Python code runs
`s.upper()` followed by four single-character `str.replace` calls,
which is exactly this per-character map.) -/
def convertChar (c : Char) : Char :=
  if upperChar c = 'Y' then '1'
  else if upperChar c = 'N' then '2'
  else if upperChar c = 'H' then '1'
  else if upperChar c = 'R' then '2'
  else upperChar c

/-- `TeamType.convert_string`: convert various possible input strings to
standard format.  Total: it never raises. -/
def convert_string (s : List Char) : List Char :=
  s.map convertChar

/-- One constructor per raise site of `NBAStatsValueException` in the
embedded code (plus `intCastOfNone` for the pandas `astype(int)`
failure on a missing value). -/
inductive Err where
  /-- `'outcome {s} has invalid number ({len(s)}) of games'` -/
  | invalidGames (n : Nat)
  /-- `'outcome {s} has invalid characters'` -/
  | invalidChars
  /-- `'outcome {s} has no winner'` -/
  | noWinner
  /-- `'outcome {s} is not valid best of 5 or 7'` -/
  | notBestOf5or7
  /-- `'invalid number of games {games_played}'` in `SeriesOutcomes.outcomes` -/
  | invalidGamesFilter (g : Int)
  /-- `'invalid number of games played {games_played}'` in `SeriesOutcome.key_from` -/
  | invalidKeyGames
  /-- `'must pass either winner or games played'` in `SeriesOutcome.key_from` -/
  | missingCriteria
  /-- `'season {season} prior to modern NBA playoff formats'` in `SeriesFormat.choose` -/
  | formatUndefined (season : Int)
  /-- pandas `astype(int)` raised on a row whose `playoff_round` was never assigned -/
  | intCastOfNone
deriving DecidableEq

/-- Tail of `SeriesOutcome._valid_string` once the winner has been
determined: reject if the winner's win count is not 3 or 4, else keep
the prefix of `s` up to and including the last occurrence of the
winning symbol (`last_index = len(s) - s[::-1].index(win_symbol)`;
`s[:last_index]`). -/
def finishValid (s : List Char) (winner_wins : Nat) (win_symbol : Char) :
    Except Err (List Char) :=
  if winner_wins ≠ 3 ∧ winner_wins ≠ 4 then .error .notBestOf5or7
  else
    .ok (s.take (s.length - s.reverse.findIdx (fun c => c == win_symbol)))

/-- `SeriesOutcome._valid_string`: normalize, check length 3–7, check the
alphabet, determine the winner by strict majority, check the win count,
truncate after the clinching game.  The stored canonical string is the
`ok` value. -/
def valid_string (s0 : List Char) : Except Err (List Char) :=
  if (convert_string s0).length < 3 ∨ 7 < (convert_string s0).length then
    .error (.invalidGames (convert_string s0).length)
  else if (convert_string s0).length ≠
      (convert_string s0).count '1' + (convert_string s0).count '2' then
    .error .invalidChars
  else if (convert_string s0).count '1' > (convert_string s0).count '2' then
    finishValid (convert_string s0) ((convert_string s0).count '1') '1'
  else if (convert_string s0).count '2' > (convert_string s0).count '1' then
    finishValid (convert_string s0) ((convert_string s0).count '2') '2'
  else .error .noWinner

/-- `SeriesOutcome.games_played` = length of the canonical string. -/
def games_played (o : List Char) : Nat := o.length

/-- `SeriesOutcome.winner` = `TeamType(outcome[-1])`. -/
def winnerOf (o : List Char) : Option TeamType :=
  o.getLast?.bind teamTypeOfValue

/-- `SeriesOutcome.game_winners` = `[TeamType(c) for c in outcome]`. -/
def game_winners (o : List Char) : Option (List TeamType) :=
  o.mapM teamTypeOfValue

/-- The other symbol: `'1' ↦ '2'`, everything else `↦ '1'`. -/
def flipSym (c : Char) : Char := if c = '1' then '2' else '1'

/-- Character loop of `SeriesOutcome.__lt__`: returns `some true` /
`some false` at the first differing position, and `none` when the loop
runs off the end without returning — Python then implicitly returns
`None`.  (The second pattern is unreachable from `seriesLt`, which only
calls this on strings of equal length; Python would raise `IndexError`
there.) -/
def charCmp : List Char → List Char → Option Bool
  | [], _ => none
  | _ :: _, [] => none
  | c :: cs, d :: ds =>
    if c < d then some true
    else if d < c then some false
    else charCmp cs ds

/-- `SeriesOutcome.__lt__`: fewer games played sorts first; for equal
length, the first differing character decides; two fully equal strings
fall off the end of the loop, returning Python `None` (modelled as
`none`). -/
def seriesLt (a b : List Char) : Option Bool :=
  if a.length < b.length then some true
  else if b.length < a.length then some false
  else charCmp a b

/-- `a < b` as Python evaluates it in a boolean context: `None` is
falsy, so a `none` result counts as "not less than". -/
def ltBool (a b : List Char) : Bool :=
  match seriesLt a b with
  | some t => t
  | none => false

/-- Insert into a `ltBool`-sorted list, keeping it sorted. -/
def insertLt (x : List Char) : List (List Char) → List (List Char)
  | [] => [x]
  | y :: ys => if ltBool x y then x :: y :: ys else y :: insertLt x ys

/-- Sorting with the `SeriesOutcome` comparison, as Python `sorted`
does.  (On the enumerator's pairwise-distinct inputs the sorted order
is uniquely determined by the strict total order `ltBool`, so any
correct sort yields Python's output.) -/
def sortLt : List (List Char) → List (List Char)
  | [] => []
  | x :: xs => insertLt x (sortLt xs)

/-- `true` iff the list is nondecreasing in the `SeriesOutcome`
ordering (no element is `ltBool`-below its predecessor). -/
def isSortedLt : List (List Char) → Bool
  | [] => true
  | [_] => true
  | a :: b :: t => !(ltBool b a) && isSortedLt (b :: t)

/-- `SeriesFormat` enum: NBA playoff schedule from the perspective of
the SHCA team. -/
inductive SeriesFormat where
  | BEST_OF_7
  | BEST_OF_5
  | FINALS_PRE_2013
deriving DecidableEq

/-- The enum member's value: the fixed home-team template string. -/
def SeriesFormat.value : SeriesFormat → List Char
  | .BEST_OF_7 => ['1', '1', '2', '2', '1', '2', '1']
  | .BEST_OF_5 => ['1', '1', '2', '2', '1']
  | .FINALS_PRE_2013 => ['1', '1', '2', '2', '2', '1', '1']

/-- `SeriesOutcomes.best_of` = `len(series_format.value)`. -/
def best_of (f : SeriesFormat) : Nat := f.value.length

/-- `SeriesOutcomes.need_to_win` = 4 if best of 7 else 3. -/
def need_to_win (f : SeriesFormat) : Nat :=
  if best_of f = 7 then 4 else 3

/-- `SeriesOutcomes._symbols` win symbol: `winner.value`. -/
def win_symbol (w : TeamType) : Char := w.value

/-- `SeriesOutcomes._symbols` lose symbol: the other member's value. -/
def lose_symbol (w : TeamType) : Char :=
  match w with
  | .SHCA => TeamType.OTHER.value
  | .OTHER => TeamType.SHCA.value

/-- All length-`n` character lists containing exactly `k` copies of `w`
and `n - k` copies of `l`.  This is `set(permutations(symbols))` for
`symbols = w*k + l*(n-k)` (with `w ≠ l`): the distinct permutations of
a two-symbol multiset are exactly the sequences with that multiset.
The Python set's iteration order is arbitrary; the enumerator sorts the
result, so only the underlying set matters. -/
def arrs (w l : Char) : Nat → Nat → List (List Char)
  | 0, 0 => [[]]
  | 0, _ + 1 => []
  | n + 1, 0 => (arrs w l n 0).map (fun t => l :: t)
  | n + 1, k + 1 =>
      ((arrs w l n k).map (fun t => w :: t)) ++
        ((arrs w l n (k + 1)).map (fun t => l :: t))

/-- `SeriesOutcomes._outcomes_for_winner`: build a `SeriesOutcome` from
every distinct permutation of `need_to_win` winning and
`best_of - need_to_win` losing symbols, then sort.  A raise inside the
comprehension would propagate, hence the `Except`. -/
def outcomesForWinner (f : SeriesFormat) (w : TeamType) :
    Except Err (List (List Char)) := do
  let raw := arrs (win_symbol w) (lose_symbol w) (best_of f) (need_to_win f)
  let outs ← raw.mapM valid_string
  return sortLt outs

/-- `SeriesOutcomes.outcomes`.  The memo cache is pure bookkeeping and
is dropped.  `winner` is a `TeamType` (always truthy in Python when
present); `games_played` follows Python integer truthiness: `0` and
`None` both skip the filter.  A supplied nonzero `games_played`
outside `[need_to_win, best_of]` raises. -/
def outcomes (f : SeriesFormat) (winner : Option TeamType)
    (games_played : Option Int) : Except Err (List (List Char)) := do
  let outs ← match winner with
    | some w => outcomesForWinner f w
    | none => do
        let shca ← outcomesForWinner f .SHCA
        let nonshca ← outcomesForWinner f .OTHER
        pure (shca ++ nonshca)
  match games_played with
  | some g =>
      if g ≠ 0 then
        if g < (need_to_win f : Int) ∨ (best_of f : Int) < g then
          .error (.invalidGamesFilter g)
        else
          pure (outs.filter (fun o => (o.length : Int) == g))
      else pure outs
  | none => pure outs

/-- The list inside an `ok` result; `[]` for an error.  Used only to
state theorems about successful enumerations. -/
def okList (e : Except Err (List (List Char))) : List (List Char) :=
  match e with
  | .ok l => l
  | .error _ => []

/-- `some` of the length of an `ok` list, `none` for an error. -/
def okLength (e : Except Err (List (List Char))) : Option Nat :=
  match e with
  | .ok l => some l.length
  | .error _ => none

/-- `PlayoffRound` enum from `params.py`. -/
inductive PlayoffRound where
  | ConferenceQuarters
  | ConferenceSemis
  | ConferenceFinals
  | Finals
deriving DecidableEq

/-- The enum member's value. -/
def PlayoffRound.value : PlayoffRound → Nat
  | .ConferenceQuarters => 1
  | .ConferenceSemis => 2
  | .ConferenceFinals => 3
  | .Finals => 4

/-- `MIN_PLAYOFFS_YEAR`: start of the modern 16-team playoff format. -/
def MIN_PLAYOFFS_YEAR : Int := 1983

/-- `SeriesFormat.choose`: playoff format appropriate for a season
(given as its integer start year) and playoff round. -/
def choose (season : Int) (playoff_round : PlayoffRound) :
    Except Err SeriesFormat :=
  if season < MIN_PLAYOFFS_YEAR then .error (.formatUndefined season)
  else if season < 2002 ∧ playoff_round = .ConferenceQuarters then
    .ok .BEST_OF_5
  else if playoff_round = .Finals then
    if season < 2013 then .ok .FINALS_PRE_2013 else .ok .BEST_OF_7
  else .ok .BEST_OF_7

/-- The `playoff_round` value `SeriesBoxScores._playoff_rounds` assigns
to the series of chronological rank `i` (`df.index = i`): the fixed
positional partition.  Ranks 15 and above match none of the `df.loc`
masks and stay unassigned (`NaN`). -/
def roundForRank (i : Nat) : Option Nat :=
  if i < 8 then some PlayoffRound.ConferenceQuarters.value
  else if i < 12 then some PlayoffRound.ConferenceSemis.value
  else if i < 14 then some PlayoffRound.ConferenceFinals.value
  else if i = 14 then some PlayoffRound.Finals.value
  else none

/-- `SeriesBoxScores._playoff_rounds` for a season whose grouping step
produced `n` series (rows indexed `0 .. n-1` after sorting by first
game date; the assigned round depends only on that rank).  The final
`astype(int)` raises exactly when some row's round was never assigned,
i.e. when some rank is `≥ 15`. -/
def playoff_rounds (n : Nat) : Except Err (List Nat) :=
  if ((List.range n).map roundForRank).all Option.isSome then
    .ok (((List.range n).map roundForRank).map (fun o => o.getD 0))
  else .error .intCastOfNone

/-- Python integer truthiness of an optional int: `None` and `0` are
falsy. -/
def truthyInt : Option Int → Bool
  | none => false
  | some g => g != 0

/-- `games_played not in (3, 4, 5, 6, 7)` for a present value. -/
def inKeyRange (g : Int) : Bool :=
  g == 3 || g == 4 || g == 5 || g == 6 || g == 7

/-- Decimal rendering of an integer, as Python string interpolation
produces it. -/
def intChars (g : Int) : List Char := (toString g).toList

/-- `SeriesOutcome.key_from`: build a partial key from whichever of the
two optional criteria is (truthily) supplied.  Note every guard uses
Python truthiness, so `games_played = 0` behaves as if absent. -/
def key_from (winner : Option TeamType) (games_played : Option Int) :
    Except Err (List Char) :=
  if truthyInt games_played ∧
      ¬ (games_played.map inKeyRange = some true) then
    .error .invalidKeyGames
  else
    match winner, games_played with
    | some w, some g =>
        if g ≠ 0 then
          .ok (w.name.toList ++ (" in ".toList ++ intChars g))
        else .ok w.name.toList
    | some w, none => .ok w.name.toList
    | none, some g =>
        if g ≠ 0 then .ok ("in ".toList ++ intChars g)
        else .error .missingCriteria
    | none, none => .error .missingCriteria

/-- `pat` occurs at the start of `l`. -/
def startsWithSeg : List Char → List Char → Bool
  | [], _ => true
  | _ :: _, [] => false
  | p :: ps, c :: cs => p == c && startsWithSeg ps cs

/-- Python substring test `pat in l`. -/
def containsSeg (pat : List Char) : List Char → Bool
  | [] => pat.isEmpty
  | c :: cs => startsWithSeg pat (c :: cs) || containsSeg pat cs

/-- `SeriesOutcome.keys_match`: the partial key built by `key_from` is
a substring of `key`; a `key_from` failure propagates. -/
def keys_match (key : List Char) (winner : Option TeamType)
    (games_played : Option Int) : Except Err Bool :=
  (key_from winner games_played).map (fun k => containsSeg k key)

/-- The round-trip property for one canonical outcome string: reading
off `game_winners` and reconstructing a `SeriesOutcome` from their
values yields the same canonical string. -/
def roundTrips (o : List Char) : Bool :=
  match game_winners o with
  | some ws => decide (valid_string (ws.map TeamType.value) = .ok o)
  | none => false

/-! ### Theorems -/

/-- C1, counterexample.  The claim predicts
`len(Enumerator(BEST_OF_7).outcomes(winner=ADV)) == 20`; the code
permutes all `best_of` positions (not `best_of - 1` with the final
position pinned), and the `C(7,4) = 35` distinct arrangements map
bijectively to distinct truncated outcomes, so the enumeration for the
ADV winner of `BEST_OF_7` has 35 elements, not 20. -/
theorem c1_counterexample :
    okLength (outcomesForWinner SeriesFormat.BEST_OF_7 TeamType.SHCA) = some 35 ∧
      (35 : Nat) ≠ 20 := by
  exact ⟨by decide, by decide⟩

/-- C1, amended.  Per winner, the enumerator yields
`C(bestOf, needToWin)` outcomes — 35 for each best-of-7 format and 10
for best-of-5 — and the unions over both winners have 70 and 20
elements respectively (not `C(bestOf−1, needToWin−1)` = 20 and 6 with
totals 40 and 12). -/
theorem c1_amended :
    okLength (outcomesForWinner SeriesFormat.BEST_OF_7 TeamType.SHCA) = some 35 ∧
    okLength (outcomesForWinner SeriesFormat.BEST_OF_7 TeamType.OTHER) = some 35 ∧
    okLength (outcomes SeriesFormat.BEST_OF_7 none none) = some 70 ∧
    okLength (outcomesForWinner SeriesFormat.BEST_OF_5 TeamType.SHCA) = some 10 ∧
    okLength (outcomesForWinner SeriesFormat.BEST_OF_5 TeamType.OTHER) = some 10 ∧
    okLength (outcomes SeriesFormat.BEST_OF_5 none none) = some 20 ∧
    okLength (outcomesForWinner SeriesFormat.FINALS_PRE_2013 TeamType.SHCA) = some 35 := by
  refine ⟨?_, ?_, ?_, ?_, ?_, ?_, ?_⟩ <;> decide

/-- C2: for every format and every outcome `o` in the full enumeration,
rebuilding a `SeriesOutcome` from `o`'s per-game winner sequence gives
back exactly the canonical string `o`. -/
theorem c2_round_trip :
    ∀ f : SeriesFormat, ∀ o ∈ okList (outcomes f none none),
      roundTrips o = true := by
  intro f
  cases f <;> decide

/-- C2, witness: the sweep outcome of `BEST_OF_7` round-trips. -/
theorem c2_round_trip_witness :
    roundTrips ['1', '1', '1', '1'] = true :=
  c2_round_trip SeriesFormat.BEST_OF_7 ['1', '1', '1', '1'] (by decide)

/-- C5, counterexample.  For `BEST_OF_7`, `outcomes()` with the winner
omitted is not sorted by the outcome ordering: it is the ADV-winner
list followed by the OTHER-winner list, and the 7-game ADV outcomes
precede the 4-game OTHER sweep. -/
theorem c5_counterexample :
    isSortedLt (okList (outcomes SeriesFormat.BEST_OF_7 none none)) = false := by
  decide

/-- C5, amended.  With the winner omitted, `outcomes()` returns the
concatenation of the ADV-winner enumeration and the OTHER-winner
enumeration; each half is itself sorted by the outcome ordering, but
the concatenation is not re-sorted. -/
theorem c5_amended :
    ∀ f : SeriesFormat, ∃ l1 l2,
      outcomesForWinner f TeamType.SHCA = .ok l1 ∧
      outcomesForWinner f TeamType.OTHER = .ok l2 ∧
      outcomes f none none = .ok (l1 ++ l2) ∧
      isSortedLt l1 = true ∧ isSortedLt l2 = true := by
  intro f
  cases f <;>
    exact ⟨_, _, rfl, rfl, by decide, by decide, by decide⟩

/-- C7: `choose` fails for every season before 1983; from 1983 on it
returns `BEST_OF_5` for pre-2002 conference quarterfinals,
`FINALS_PRE_2013` for pre-2013 finals, and `BEST_OF_7` in every other
case. -/
theorem c7_choose :
    ∀ (y : Int) (r : PlayoffRound),
      (y < 1983 → choose y r = .error (.formatUndefined y)) ∧
      (1983 ≤ y → y < 2002 → r = .ConferenceQuarters →
        choose y r = .ok .BEST_OF_5) ∧
      (1983 ≤ y → y < 2013 → r = .Finals →
        choose y r = .ok .FINALS_PRE_2013) ∧
      (1983 ≤ y → 2013 ≤ y → r = .Finals → choose y r = .ok .BEST_OF_7) ∧
      (1983 ≤ y → ¬(y < 2002 ∧ r = .ConferenceQuarters) → r ≠ .Finals →
        choose y r = .ok .BEST_OF_7) := by
  intro y r
  unfold choose MIN_PLAYOFFS_YEAR
  refine ⟨?_, ?_, ?_, ?_, ?_⟩ <;> intros <;> subst_eqs <;>
    split_ifs <;> first
      | rfl
      | omega
      | (exfalso; simp_all)

/-- C7, witness: the spec's four concrete cases of `choose`. -/
theorem c7_choose_witness :
    choose 1990 .ConferenceQuarters = .ok .BEST_OF_5 ∧
    choose 2010 .Finals = .ok .FINALS_PRE_2013 ∧
    choose 2015 .Finals = .ok .BEST_OF_7 ∧
    choose 1975 .ConferenceSemis = .error (.formatUndefined 1975) :=
  ⟨(c7_choose 1990 .ConferenceQuarters).2.1 (by decide) (by decide) rfl,
   (c7_choose 2010 .Finals).2.2.1 (by decide) (by decide) rfl,
   (c7_choose 2015 .Finals).2.2.2.1 (by decide) (by decide) rfl,
   (c7_choose 1975 .ConferenceSemis).1 (by decide)⟩

/-- C10, counterexample.  `key_from` does not fail for every supplied
`games_played` outside `{3,4,5,6,7}`: a supplied `0` is falsy in the
Python guards, so `key_from(winner=SHCA, games_played=0)` silently
behaves as if `games_played` were absent and returns `"SHCA"`. -/
theorem c10_counterexample :
    key_from (some TeamType.SHCA) (some 0) = .ok ['S', 'H', 'C', 'A'] ∧
      keys_match ("SHCA in 5".toList) (some TeamType.SHCA) (some 0) =
        .ok true := by
  exact ⟨by decide, by decide⟩

/-- C10, amended.  For every supplied *nonzero* `games_played` outside
`{3,4,5,6,7}`, `key_from` (and hence `keys_match`) fails with the
invalid-games value error even when a winner is supplied; a supplied
`0` is treated as absent (Python integer truthiness); and `key_from`
also fails (missing criteria) when neither a winner nor a truthy
`games_played` is supplied. -/
theorem c10_amended :
    ∀ (w : Option TeamType) (key : List Char) (g : Int),
      (g ≠ 0 → ¬(g = 3 ∨ g = 4 ∨ g = 5 ∨ g = 6 ∨ g = 7) →
        key_from w (some g) = .error .invalidKeyGames ∧
        keys_match key w (some g) = .error .invalidKeyGames) ∧
      key_from none none = .error .missingCriteria ∧
      key_from none (some 0) = .error .missingCriteria := by
  intro w key g
  refine ⟨?_, by decide, by decide⟩
  intro hg hrange
  have htr : truthyInt (some g) = true := by
    simp [truthyInt, hg]
  have hkr : inKeyRange g = false := by
    simp only [inKeyRange]
    simp only [not_or] at hrange
    obtain ⟨h3, h4, h5, h6, h7⟩ := hrange
    simp [h3, h4, h5, h6, h7]
  have hkey : key_from w (some g) = .error .invalidKeyGames := by
    unfold key_from
    rw [if_pos]
    exact ⟨htr, by simp [hkr]⟩
  exact ⟨hkey, by simp [keys_match, hkey, Except.map]⟩

/-- C10, witness: `games_played = 8` with a winner supplied fails in
both `key_from` and `keys_match`. -/
theorem c10_amended_witness :
    key_from (some TeamType.SHCA) (some 8) = .error .invalidKeyGames ∧
      keys_match ("SHCA in 5".toList) (some TeamType.SHCA) (some 8) =
        .error .invalidKeyGames :=
  (c10_amended (some TeamType.SHCA) ("SHCA in 5".toList) 8).1
    (by decide) (by decide)

/-- A chronological rank receives a playoff round exactly when it is
below 15. -/
theorem roundForRank_isSome (i : Nat) :
    (roundForRank i).isSome = true ↔ i < 15 := by
  unfold roundForRank
  split_ifs <;> simp_all <;> omega

/-- No rank below 14 is assigned the finals round value. -/
theorem roundForRank_ne_finals (i : Nat) (h : i < 14) :
    (roundForRank i).getD 0 ≠ PlayoffRound.Finals.value := by
  unfold roundForRank PlayoffRound.value
  split_ifs <;> simp_all

/-- C8, counterexample.  A season grouping into 14 series does not make
the pipeline fail: round assignment silently applies the positional
partition to the first 14 ranks (8 quarterfinal, 4 semifinal, 2
conference-final values) and no finals round is ever assigned. -/
theorem c8_counterexample :
    playoff_rounds 14 = .ok [1, 1, 1, 1, 1, 1, 1, 1, 2, 2, 2, 2, 3, 3] := by
  decide

/-- C8, amended.  Round assignment succeeds exactly when the season has
at most 15 series: more than 15 fails (the integer cast of the
unassigned round raises), while fewer than 15 silently yields the
positional partition truncated to the available ranks — in particular
no series is ever labelled as the finals when at most 14 series exist
— contrary to the claim that any count other than 15 fails. -/
theorem c8_amended :
    ∀ n : Nat,
      ((∃ l, playoff_rounds n = .ok l) ↔ n ≤ 15) ∧
      (15 < n → playoff_rounds n = .error .intCastOfNone) ∧
      (∀ l, n ≤ 14 → playoff_rounds n = .ok l →
        PlayoffRound.Finals.value ∉ l) := by
  intro n
  have hall : (((List.range n).map roundForRank).all Option.isSome = true)
      ↔ n ≤ 15 := by
    simp only [List.all_eq_true, List.mem_map, List.mem_range]
    constructor
    · intro h
      by_contra hn
      have h15 : 15 < n := by omega
      have := h (roundForRank 15) ⟨15, h15, rfl⟩
      simp [roundForRank] at this
    · rintro h x ⟨a, ha, rfl⟩
      exact (roundForRank_isSome a).mpr (by omega)
  refine ⟨⟨?_, ?_⟩, ?_, ?_⟩
  · rintro ⟨l, hl⟩
    unfold playoff_rounds at hl
    split at hl
    · exact hall.mp (by assumption)
    · exact Except.noConfusion hl
  · intro h
    exact ⟨_, by unfold playoff_rounds; rw [if_pos (hall.mpr h)]⟩
  · intro h
    unfold playoff_rounds
    rw [if_neg]
    intro habs
    have := hall.mp habs
    omega
  · intro l hn hl
    unfold playoff_rounds at hl
    split at hl
    · cases hl
      intro hmem
      rw [List.mem_map] at hmem
      obtain ⟨o, ho, hval⟩ := hmem
      rw [List.mem_map] at ho
      obtain ⟨a, ha, rfl⟩ := ho
      rw [List.mem_range] at ha
      exact roundForRank_ne_finals a (by omega) hval
    · exact Except.noConfusion hl

/-- C8, witness: with exactly 15 series every round is assigned
(8 quarterfinals, 4 semifinals, 2 conference finals, 1 finals), and a
16-series season fails. -/
theorem c8_amended_witness :
    (∃ l, playoff_rounds 15 = .ok l) ∧
      playoff_rounds 16 = .error .intCastOfNone ∧
      PlayoffRound.Finals.value ∉
        ([1, 1, 1, 1, 1, 1, 1, 1, 2, 2, 2, 2, 3, 3] : List Nat) :=
  ⟨(c8_amended 15).1.mpr (by decide),
   (c8_amended 16).2.1 (by decide),
   (c8_amended 14).2.2 _ (by decide) (by decide)⟩

/-- Comparing a string against itself runs the character loop off the
end: the Python method returns `None`. -/
theorem charCmp_self : ∀ a : List Char, charCmp a a = none := by
  intro a
  induction a with
  | nil => rfl
  | cons c cs ih => simp [charCmp, lt_irrefl, ih]

/-- Trichotomy of the character loop on equal-length strings. -/
theorem charCmp_tri :
    ∀ a b : List Char, a.length = b.length →
      charCmp a b = some true ∨ charCmp b a = some true ∨ a = b := by
  intro a
  induction a with
  | nil =>
      intro b hb
      right; right
      exact (List.length_eq_zero.mp hb.symm).symm
  | cons c cs ih =>
      intro b hb
      cases b with
      | nil => simp at hb
      | cons d ds =>
          rcases lt_trichotomy c d with hcd | hcd | hcd
          · left
            simp [charCmp, hcd]
          · subst hcd
            have hlen : cs.length = ds.length := by simpa using hb
            rcases ih ds hlen with h | h | h
            · left
              simp [charCmp, lt_irrefl, h]
            · right; left
              simp [charCmp, lt_irrefl, h]
            · right; right
              rw [h]
          · right; left
            simp [charCmp, hcd]

/-- The character loop never reports strict-less in both directions. -/
theorem charCmp_asymm :
    ∀ a b : List Char, charCmp a b = some true →
      charCmp b a = some true → False := by
  intro a
  induction a with
  | nil => intro b h; simp [charCmp] at h
  | cons c cs ih =>
      intro b hab hba
      cases b with
      | nil => simp [charCmp] at hab
      | cons d ds =>
          by_cases hcd : c < d
          · have hdc : ¬ d < c := asymm hcd
            simp [charCmp, hcd, hdc] at hba
          · by_cases hdc : d < c
            · simp [charCmp, hcd, hdc] at hab
            · simp only [charCmp, if_neg hcd, if_neg hdc] at hab hba
              exact ih ds hab hba

/-- C4, counterexample.  On two identical canonical strings the
comparison has no explicit equal case: the loop falls off the end and
the method returns Python `None` (modelled `none`), rather than
reporting equality through a dedicated branch. -/
theorem c4_counterexample :
    seriesLt ['1', '1', '1'] ['1', '1', '1'] = none := by
  decide

/-- C4, amended.  The comparison is behaviorally total: fewer games
played sorts strictly first, equal-length strings are decided by the
first differing character, and two fully equal strings compare
not-less in both directions — but only because Python's implicit
`None` return is falsy, the fall-off of the loop, not an explicit
equal case. -/
theorem c4_amended :
    ∀ a b : List Char,
      (a.length < b.length → ltBool a b = true ∧ ltBool b a = false) ∧
      (a = b → seriesLt a b = none ∧ ltBool a b = false ∧
        ltBool b a = false) ∧
      (ltBool a b = true ∨ ltBool b a = true ∨ a = b) ∧
      ¬(ltBool a b = true ∧ ltBool b a = true) := by
  intro a b
  refine ⟨?_, ?_, ?_, ?_⟩
  · intro hlen
    constructor
    · simp [ltBool, seriesLt, hlen]
    · simp [ltBool, seriesLt, hlen, Nat.lt_asymm hlen]
  · rintro rfl
    have h := charCmp_self a
    refine ⟨?_, ?_, ?_⟩ <;> simp [seriesLt, ltBool, lt_irrefl, h]
  · rcases Nat.lt_trichotomy a.length b.length with h | h | h
    · left
      simp [ltBool, seriesLt, h]
    · rcases charCmp_tri a b h with hc | hc | hc
      · left
        simp [ltBool, seriesLt, h, lt_irrefl, hc]
      · right; left
        simp [ltBool, seriesLt, h, lt_irrefl, hc]
      · right; right; exact hc
    · right; left
      simp [ltBool, seriesLt, h]
  · rintro ⟨hab, hba⟩
    rcases Nat.lt_trichotomy a.length b.length with h | h | h
    · simp [ltBool, seriesLt, h, Nat.lt_asymm h] at hba
    · simp only [ltBool, seriesLt, h, lt_irrefl, if_neg (lt_irrefl _)]
        at hab hba
      rcases hcab : charCmp a b with _ | t <;> rw [hcab] at hab
      · simp at hab
      · rcases hcba : charCmp b a with _ | t2 <;> rw [hcba] at hba
        · simp at hba
        · cases hab; cases hba
          exact charCmp_asymm a b hcab hcba
    · simp [ltBool, seriesLt, h, Nat.lt_asymm h] at hab

/-- C4, witness: a 3-game outcome sorts strictly below a 4-game
outcome and not conversely; two identical strings compare `none`. -/
theorem c4_amended_witness :
    (ltBool ['1', '1', '1'] ['1', '1', '2', '1'] = true ∧
      ltBool ['1', '1', '2', '1'] ['1', '1', '1'] = false) ∧
    seriesLt ['2', '2', '2'] ['2', '2', '2'] = none :=
  ⟨(c4_amended ['1', '1', '1'] ['1', '1', '2', '1']).1 (by decide),
   ((c4_amended ['2', '2', '2'] ['2', '2', '2']).2.1 rfl).1⟩

/-- `Char.ofNat` round-trips through `toNat` on valid code points. -/
theorem toNat_ofNat_valid (n : Nat) (hv : n.isValidChar) :
    (Char.ofNat n).toNat = n := by
  simp only [Char.ofNat, hv, dif_pos]
  simp only [Char.ofNatAux, Char.toNat]
  rfl

/-- Value of `upperChar` on an ASCII lowercase letter. -/
theorem upperChar_toNat (c : Char)
    (h : 97 ≤ c.toNat ∧ c.toNat ≤ 122) :
    (upperChar c).toNat = c.toNat - 32 := by
  unfold upperChar
  rw [if_pos h]
  exact toNat_ofNat_valid _ (Or.inl (by omega))

/-- ASCII uppercasing is idempotent. -/
theorem upperChar_idem (c : Char) :
    upperChar (upperChar c) = upperChar c := by
  by_cases h : 97 ≤ c.toNat ∧ c.toNat ≤ 122
  · have ht : (upperChar c).toNat = c.toNat - 32 := upperChar_toNat c h
    have hno : ¬(97 ≤ (upperChar c).toNat ∧ (upperChar c).toNat ≤ 122) := by
      rw [ht]; omega
    conv_lhs => rw [upperChar]
    rw [if_neg hno]
  · have hc : upperChar c = c := by unfold upperChar; rw [if_neg h]
    rw [hc, hc]

/-- `convertChar` either produces a canonical symbol or passes the
uppercased character through, in which case it is none of the alias
letters. -/
theorem convertChar_cases (c : Char) :
    convertChar c = '1' ∨ convertChar c = '2' ∨
      (convertChar c = upperChar c ∧ upperChar c ≠ 'Y' ∧
        upperChar c ≠ 'N' ∧ upperChar c ≠ 'H' ∧ upperChar c ≠ 'R') := by
  unfold convertChar
  split_ifs <;> simp_all

/-- One character of the normalization is idempotent. -/
theorem convertChar_idem (c : Char) :
    convertChar (convertChar c) = convertChar c := by
  rcases convertChar_cases c with h | h | h
  · rw [h]; decide
  · rw [h]; decide
  · obtain ⟨heq, hy, hn, hh, hr⟩ := h
    rw [heq]
    unfold convertChar
    simp only [upperChar_idem]
    rw [if_neg hy, if_neg hn, if_neg hh, if_neg hr]

/-- C9, counterexample.  `convert_string` never fails: a token outside
the accepted alphabet, such as `'X'`, is returned unchanged instead of
raising an invalid-token error (its invalidity only surfaces in later
validation). -/
theorem c9_counterexample : convert_string ['X'] = ['X'] := by
  decide

/-- C9, amended.  Role normalization is idempotent on *every* input
(hence in particular on the accepted alphabet), but it never fails:
tokens outside the accepted alphabet pass through (after ASCII
uppercasing) and are only rejected downstream — for instance the
outcome validator reports invalid characters for a string of `'X'`s. -/
theorem c9_amended :
    (∀ s : List Char, convert_string (convert_string s) = convert_string s) ∧
      valid_string ['X', 'X', 'X'] = .error .invalidChars := by
  constructor
  · intro s
    unfold convert_string
    rw [List.map_map]
    exact List.map_congr_left (fun c _ => convertChar_idem c)
  · decide

/-- Dropping up to the first index where `p` holds is dropping while
`p` fails. -/
theorem drop_findIdx_eq_dropWhile (p : Char → Bool) :
    ∀ r : List Char, r.drop (r.findIdx p) = r.dropWhile (fun c => !(p c)) := by
  intro r
  induction r with
  | nil => rfl
  | cons a t ih =>
      rw [List.findIdx_cons, List.dropWhile_cons]
      cases hpa : p a
      · simpa [hpa] using ih
      · simp [hpa]

/-- Dropping while `≠ w` from a list containing `w` yields `w` followed
by a tail; the result keeps every occurrence of `w` and at most as many
occurrences of any other character. -/
theorem dropWhile_ne_spec (w : Char) :
    ∀ r : List Char, w ∈ r →
      ∃ rest, r.dropWhile (fun c => !(c == w)) = w :: rest ∧
        (w :: rest).count w = r.count w ∧
        ∀ c, (w :: rest).count c ≤ r.count c := by
  intro r
  induction r with
  | nil => intro h; cases h
  | cons a t ih =>
      intro hmem
      by_cases haw : a = w
      · subst haw
        exact ⟨t, by simp [List.dropWhile_cons], rfl, fun c => le_refl _⟩
      · have hw : w ∈ t := by
          rcases List.mem_cons.mp hmem with h | h
          · exact absurd h.symm haw
          · exact h
        obtain ⟨rest, heq, hcw, hle⟩ := ih hw
        refine ⟨rest, ?_, ?_, ?_⟩
        · rw [List.dropWhile_cons, if_pos (by simp [haw])]
          exact heq
        · rw [hcw, List.count_cons, if_neg (by simp [haw])]
          omega
        · intro c
          refine le_trans (hle c) ?_
          rw [List.count_cons]
          omega

/-- The clinch truncation `s[:len(s) - s[::-1].index(w)]`: when `w`
occurs in `s`, the truncated string ends in `w`, keeps all of `s`'s
occurrences of `w`, and has at most `s`'s count of every character. -/
theorem truncation_spec (s : List Char) (w : Char) (hmem : w ∈ s) :
    (s.take (s.length - s.reverse.findIdx (fun c => c == w))).getLast? =
        some w ∧
      (s.take (s.length - s.reverse.findIdx (fun c => c == w))).count w =
        s.count w ∧
      ∀ c, (s.take (s.length - s.reverse.findIdx (fun c => c == w))).count c ≤
        s.count c := by
  have htake :
      s.take (s.length - s.reverse.findIdx (fun c => c == w)) =
        (s.reverse.drop (s.reverse.findIdx (fun c => c == w))).reverse := by
    rw [List.drop_reverse, List.reverse_reverse]
  have hwr : w ∈ s.reverse := List.mem_reverse.mpr hmem
  obtain ⟨rest, heq, hcw, hle⟩ := dropWhile_ne_spec w s.reverse hwr
  rw [htake, drop_findIdx_eq_dropWhile, heq]
  refine ⟨?_, ?_, ?_⟩
  · rw [List.getLast?_reverse]
    rfl
  · rw [List.count_reverse, hcw]
    exact List.count_reverse w s
  · intro c
    rw [List.count_reverse]
    exact le_trans (hle c) (le_of_eq (List.count_reverse c s))

/-- C3: every canonical string stored by a successful construction has
a last character (the winning symbol) in `{'1','2'}`, that symbol
occurs 3 or 4 times, and it strictly out-counts the other symbol —
trailing characters after the clinch are never stored. -/
theorem c3_invariants :
    ∀ s t : List Char, valid_string s = .ok t →
      ∃ w, t.getLast? = some w ∧ (w = '1' ∨ w = '2') ∧
        (t.count w = 3 ∨ t.count w = 4) ∧
        t.count (flipSym w) < t.count w := by
  intro s t h
  unfold valid_string at h
  split_ifs at h with h1 h2 h3 h4
  · unfold finishValid at h
    split_ifs at h with h5
    push_neg at h5
    have hcnt : (convert_string s).count '1' = 3 ∨
        (convert_string s).count '1' = 4 := by
      by_cases hc3 : (convert_string s).count '1' = 3
      · exact Or.inl hc3
      · exact Or.inr (h5 hc3)
    have hmem : '1' ∈ convert_string s := by
      rw [← List.count_pos_iff]
      omega
    obtain ⟨hlast, hkeep, hle⟩ := truncation_spec (convert_string s) '1' hmem
    cases h
    refine ⟨'1', hlast, Or.inl rfl, by rw [hkeep]; exact hcnt, ?_⟩
    have hflip : flipSym '1' = '2' := rfl
    rw [hflip, hkeep]
    exact lt_of_le_of_lt (hle '2') h3
  · unfold finishValid at h
    split_ifs at h with h5
    push_neg at h5
    have hcnt : (convert_string s).count '2' = 3 ∨
        (convert_string s).count '2' = 4 := by
      by_cases hc3 : (convert_string s).count '2' = 3
      · exact Or.inl hc3
      · exact Or.inr (h5 hc3)
    have hmem : '2' ∈ convert_string s := by
      rw [← List.count_pos_iff]
      omega
    obtain ⟨hlast, hkeep, hle⟩ := truncation_spec (convert_string s) '2' hmem
    cases h
    refine ⟨'2', hlast, Or.inr rfl, by rw [hkeep]; exact hcnt, ?_⟩
    have hflip : flipSym '2' = '1' := rfl
    rw [hflip, hkeep]
    exact lt_of_le_of_lt (hle '1') h4

/-- C3, witness: a noisy 7-game record whose series was clinched in
game 6 is truncated and satisfies the invariants. -/
theorem c3_invariants_witness :
    valid_string ['1', '2', '1', '1', '2', '1', '2'] =
        .ok ['1', '2', '1', '1', '2', '1'] ∧
      ∃ w, (['1', '2', '1', '1', '2', '1'] : List Char).getLast? = some w ∧
        (w = '1' ∨ w = '2') ∧
        ((['1', '2', '1', '1', '2', '1'] : List Char).count w = 3 ∨
          (['1', '2', '1', '1', '2', '1'] : List Char).count w = 4) ∧
        (['1', '2', '1', '1', '2', '1'] : List Char).count (flipSym w) <
          (['1', '2', '1', '1', '2', '1'] : List Char).count w :=
  ⟨by decide, c3_invariants ['1', '2', '1', '1', '2', '1', '2'] _ (by decide)⟩

/-- C6, counterexample.  The constructor *does* pre-reject long noisy
input: a length-8 sequence with four wins apiece is rejected by the
up-front length check (invalid game count for 8), not by the
equal-counts check (`NoWinner`) the claim says must fire. -/
theorem c6_counterexample :
    valid_string ['1', '1', '2', '2', '1', '1', '2', '2'] =
        .error (.invalidGames 8) ∧
      Err.invalidGames 8 ≠ Err.noWinner := by
  exact ⟨by decide, by decide⟩

/-- C6, amended.  Construction first rejects any input whose normalized
length is outside 3–7 (up-front length check, before any counting);
within that range it rejects foreign characters, then fails `NoWinner`
exactly when the two counts are equal, fails the best-of-5-or-7 check
exactly when the winning count is not in `{3,4}`, and otherwise stores
the prefix ending at the last occurrence of the winning symbol. -/
theorem c6_amended :
    ∀ (s : List Char) (c1 c2 : Nat),
      c1 = (convert_string s).count '1' →
      c2 = (convert_string s).count '2' →
      ((convert_string s).length < 3 ∨ 7 < (convert_string s).length →
        valid_string s = .error (.invalidGames (convert_string s).length)) ∧
      (3 ≤ (convert_string s).length → (convert_string s).length ≤ 7 →
        ((convert_string s).length ≠ c1 + c2 →
          valid_string s = .error .invalidChars) ∧
        ((convert_string s).length = c1 + c2 →
          (c1 = c2 → valid_string s = .error .noWinner) ∧
          (c2 < c1 →
            (c1 ≠ 3 ∧ c1 ≠ 4 → valid_string s = .error .notBestOf5or7) ∧
            (c1 = 3 ∨ c1 = 4 → valid_string s =
              .ok ((convert_string s).take ((convert_string s).length -
                (convert_string s).reverse.findIdx (fun c => c == '1'))))) ∧
          (c1 < c2 →
            (c2 ≠ 3 ∧ c2 ≠ 4 → valid_string s = .error .notBestOf5or7) ∧
            (c2 = 3 ∨ c2 = 4 → valid_string s =
              .ok ((convert_string s).take ((convert_string s).length -
                (convert_string s).reverse.findIdx (fun c => c == '2'))))))) := by
  intro s c1 c2 hc1 hc2
  subst hc1
  subst hc2
  constructor
  · intro h
    unfold valid_string
    rw [if_pos h]
  · intro hlen3 hlen7
    have hno : ¬((convert_string s).length < 3 ∨
        7 < (convert_string s).length) := by omega
    constructor
    · intro hne
      unfold valid_string
      rw [if_neg hno, if_pos hne]
    · intro heq
      have hne' : ¬((convert_string s).length ≠
          (convert_string s).count '1' + (convert_string s).count '2') :=
        not_not_intro heq
      refine ⟨?_, ?_, ?_⟩
      · intro hceq
        unfold valid_string
        rw [if_neg hno, if_neg hne', if_neg (by omega), if_neg (by omega)]
      · intro hgt
        unfold valid_string finishValid
        rw [if_neg hno, if_neg hne', if_pos hgt]
        constructor
        · intro hbad
          rw [if_pos hbad]
        · intro hor
          rw [if_neg (by tauto)]
      · intro hgt
        unfold valid_string finishValid
        rw [if_neg hno, if_neg hne', if_neg (by omega), if_pos hgt]
        constructor
        · intro hbad
          rw [if_pos hbad]
        · intro hor
          rw [if_neg (by tauto)]

/-- C6, witness: the length-8 input is stopped by the up-front length
check, and a length-6 split series hits the `NoWinner` check. -/
theorem c6_amended_witness :
    valid_string ['1', '1', '2', '2', '1', '1', '2', '2'] =
        .error (.invalidGames 8) ∧
      valid_string ['1', '2', '1', '2', '1', '2'] = .error .noWinner :=
  ⟨(c6_amended ['1', '1', '2', '2', '1', '1', '2', '2'] _ _ rfl rfl).1
      (by decide),
   (((c6_amended ['1', '2', '1', '2', '1', '2'] _ _ rfl rfl).2
      (by decide) (by decide)).2 (by decide)).1 (by decide)⟩

end Pracnbastats
